import Mathlib

/-!
Shallow embedding of the thread-based worker pool of `cheroot/workers/threadpool.py`
(`WorkerThread` and `ThreadPool`), together with theorems checking the
natural-language specification of that module against the code.

Modelling conventions:
* Machine/Python integers are modelled by `Int` (or `Nat` where the source value
  is a count), Python floats (timestamps, byte counters entering float
  arithmetic) by `ℚ`.  Only order comparisons, `+`, `-`, `/` are performed on
  them in the source, so `ℚ` is an exact model.
* The shutdown sentinel `_SHUTDOWNREQUEST` is Python `None`; a queue item is
  therefore modelled as `Option Conn`, with `none` the sentinel.
* A Python `dict` keyed by socket (the per-worker `conn_socks` mapping) is an
  insertion-ordered association list `List (Nat × Conn × ℚ)`; updating an
  existing key keeps its position, exactly as CPython dicts do.
* Effects on connections (`conn.communicate()`, `conn.close()`,
  `conn_socks.pop(...)`) are recorded in an event trace so that ordering claims
  ("flush, then close, then evict") can be stated.
* Thread identity (`is`, `list.remove`) is modelled by giving each worker an
  `id`; in the source every `WorkerThread` object is a distinct object appended
  to `_threads` once, so object identity coincides with structural equality on
  workers with distinct ids.
-/

/-- A connection handle, as consumed by the pool: its socket identity, the
counters exposed through `conn.requests_seen`, `conn.rfile.bytes_read`,
`conn.wfile.bytes_written`, and the `conn.rfile.closed` flag consulted by
`ThreadPool.stop`.  (The attributes `rfile.bytes_read` etc. are flattened into
fields.) -/
structure Conn where
  socket : Nat
  requests_seen : ℚ
  rfile_bytes_read : ℚ
  wfile_bytes_written : ℚ
  rfile_closed : Bool
deriving DecidableEq

/-- A `WorkerThread` as seen from the pool: `id` models Python object identity,
`alive` models `isAlive()`, `ready` the ready flag, `conn` the
"current connection pulled off the Queue, or None", and the remaining fields
are the banked statistics counters set up in `WorkerThread.__init__`
(`requests_seen`, `bytes_read`, `bytes_written`, `start_time`, `work_time`). -/
structure WorkerThread where
  id : Nat
  alive : Bool
  ready : Bool
  conn : Option Conn
  requests_seen : ℚ
  bytes_read : ℚ
  bytes_written : ℚ
  start_time : Option ℚ
  work_time : ℚ
deriving DecidableEq

/-- The shared queue: `queue.Queue(maxsize)`.  `maxsize ≤ 0` means unbounded.
Items are `Option Conn`: `none` is the shutdown sentinel `_SHUTDOWNREQUEST`. -/
structure PyQueue (α : Type) where
  maxsize : Int
  items : List α
deriving DecidableEq

/-- `queue.Queue.full()` / the blocking test inside `put`: the queue is full
iff `0 < maxsize ≤ qsize`. -/
def PyQueue.full (q : PyQueue α) : Bool :=
  decide (0 < q.maxsize) && decide (q.maxsize ≤ (q.items.length : Int))

/-- `queue.Queue.put(item, block=True, timeout=timeout)` under no concurrent
consumer (no slot can free while the caller blocks): on a full queue the
caller blocks for the whole `timeout` and then the `queue.Full` error is
raised (modelled `Except.error ()`); otherwise the item is appended and the
call returns immediately.  The second component is the time spent blocked. -/
def PyQueue.put (q : PyQueue α) (x : α) (timeout : ℚ) :
    Except Unit (PyQueue α) × ℚ :=
  if q.full then (Except.error (), timeout)
  else (Except.ok ⟨q.maxsize, q.items ++ [x]⟩, 0)

/-- The `ThreadPool` state: `min`, `max`, the live worker list `_threads`, the
shared queue `_queue`, and `_queue_put_timeout`. -/
structure ThreadPool where
  min : Int
  max : Int
  threads : List WorkerThread
  queue : PyQueue (Option Conn)
  queue_put_timeout : ℚ
deriving DecidableEq

/-- `ThreadPool.idle`: `len([t for t in self._threads if t.conn is None])`. -/
def ThreadPool.idle (p : ThreadPool) : Nat :=
  (p.threads.filter (fun t => t.conn.isNone)).length

/-- `ThreadPool.put`: submits `obj` through
`self._queue.put(obj, block=True, timeout=self._queue_put_timeout)`.
(The trailing `if obj is _SHUTDOWNREQUEST: return` in the source is a no-op:
the method returns either way.)  Result: the queue outcome plus time blocked. -/
def ThreadPool.put (p : ThreadPool) (obj : Option Conn) :
    Except Unit (PyQueue (Option Conn)) × ℚ :=
  PyQueue.put p.queue obj p.queue_put_timeout

/-- `ThreadPool._spawn_worker`, just after `worker.start()` returns: a fresh
`WorkerThread(self.server)` whose ready flag is not yet set (the worker sets it
asynchronously at the top of `run`). -/
def ThreadPool.spawn_worker (i : Nat) : WorkerThread :=
  ⟨i, true, false, none, 0, 0, 0, none, 0⟩

/-- The `while not all(worker.ready for worker in workers): time.sleep(.1)`
wait in `grow` (and `start`): it returns control only once every spawned
worker has set its ready flag, so the observed state of the spawned workers at
loop exit is `ready := true`. -/
def waitAllReady (ws : List WorkerThread) : List WorkerThread :=
  ws.map (fun w => { w with ready := true })

/-- `ThreadPool.grow(amount)`: with `max > 0` the budget is
`max(self.max - len(self._threads), 0)`, otherwise `float('inf')` (no bound,
so `n_new = min(amount, budget) = amount`); `n_new` workers are spawned
(`range(n_new)` runs `max(n_new, 0)` times), the caller blocks until all of
them are ready, and they are appended to `_threads`.  Returns the new pool and
the list of workers that were appended. -/
def ThreadPool.grow (p : ThreadPool) (amount : Int) :
    ThreadPool × List WorkerThread :=
  let n_new : Int :=
    if 0 < p.max then Min.min amount (Max.max (p.max - (p.threads.length : Int)) 0)
    else amount
  let workers := waitAllReady ((List.range n_new.toNat).map ThreadPool.spawn_worker)
  ({ p with threads := p.threads ++ workers }, workers)

/-- The dead-thread pruning loop at the top of `ThreadPool.shrink`:

    for t in self._threads:
        if not t.isAlive():
            self._threads.remove(t)
            amount -= 1

CPython's `for` iterates by index over the list being mutated: at index `i` it
reads `t = lst[i]`, possibly removes `t` (`list.remove` deletes the first
element equal to `t`; thread objects compare by identity), and then advances
to index `i + 1` of the *mutated* list.  The loop ends when the index reaches
the current length. -/
def pruneLoop (ts : List WorkerThread) (i : Nat) (amount : Int) :
    List WorkerThread × Int :=
  if h : i < ts.length then
    let t := ts[i]
    if t.alive then pruneLoop ts (i + 1) amount
    else pruneLoop (ts.erase t) (i + 1) (amount - 1)
  else (ts, amount)
termination_by ts.length - i
decreasing_by
  · omega
  · have ht : ts[i] ∈ ts := List.getElem_mem h
    have := List.length_erase_of_mem ht
    omega

/-- `ThreadPool.shrink(amount)`: prune dead threads (see `pruneLoop`), compute
`n_extra = max(len(self._threads) - self.min, 0)` and
`n_to_remove = min(amount, n_extra)`, then put `n_to_remove` shutdown
sentinels on the queue (`range` of a negative number runs zero times).
Returns the new pool and the number of sentinels enqueued. -/
def ThreadPool.shrink (p : ThreadPool) (amount : Int) : ThreadPool × Nat :=
  let r := pruneLoop p.threads 0 amount
  let n_extra : Int := Max.max ((r.1.length : Int) - p.min) 0
  let n_to_remove : Int := Min.min r.2 n_extra
  let k := n_to_remove.toNat
  ({ p with
      threads := r.1,
      queue := ⟨p.queue.maxsize, p.queue.items ++ List.replicate k none⟩ }, k)

/-!  Worker statistics (`WorkerThread.__init__`'s `self.stats` closures).

Each entry `X` of the dict is of the shape
`self.x + (self.start_time is None and trueyzero or live_counter)`: when
`start_time` is `None` the parenthesised Python expression evaluates to
`trueyzero` (which adds like 0), otherwise to the live counter of
`self.conn` — the connection currently mid-processing.  In the source
`start_time` is only ever set while `self.conn` is a connection, so the
`none` fallback for `conn` below is never hit on reachable states. -/

/-- `stats['Requests']`. -/
def WorkerThread.statRequests (w : WorkerThread) : ℚ :=
  w.requests_seen +
    match w.start_time with
    | none => 0
    | some _ => (w.conn.map (fun c => c.requests_seen)).getD 0

/-- `stats['Bytes Read']`. -/
def WorkerThread.statBytesRead (w : WorkerThread) : ℚ :=
  w.bytes_read +
    match w.start_time with
    | none => 0
    | some _ => (w.conn.map (fun c => c.rfile_bytes_read)).getD 0

/-- `stats['Bytes Written']`. -/
def WorkerThread.statBytesWritten (w : WorkerThread) : ℚ :=
  w.bytes_written +
    match w.start_time with
    | none => 0
    | some _ => (w.conn.map (fun c => c.wfile_bytes_written)).getD 0

/-- `stats['Work Time']` sampled at time `now`. -/
def WorkerThread.statWorkTime (w : WorkerThread) (now : ℚ) : ℚ :=
  w.work_time +
    match w.start_time with
    | none => 0
    | some st => now - st

/-- `stats['Read Throughput']`: `Bytes Read / (Work Time or 1e-6)`.  Python's
`x or 1e-6` yields `x` unless `x == 0`, in which case it yields `1e-6`. -/
def WorkerThread.statReadThroughput (w : WorkerThread) (now : ℚ) : ℚ :=
  w.statBytesRead /
    (if w.statWorkTime now = 0 then (1 / 1000000 : ℚ) else w.statWorkTime now)

/-- `stats['Write Throughput']`: `Bytes Written / (Work Time or 1e-6)`. -/
def WorkerThread.statWriteThroughput (w : WorkerThread) (now : ℚ) : ℚ :=
  w.statBytesWritten /
    (if w.statWorkTime now = 0 then (1 / 1000000 : ℚ) else w.statWorkTime now)

/-- The throughput formula as worded by the spec: bytes divided by
`max(work time, ε)` with `ε = 1e-6`.  Stated for comparison with the source
formula `statReadThroughput`. -/
def WorkerThread.specReadThroughputMax (w : WorkerThread) (now : ℚ) : ℚ :=
  w.statBytesRead / Max.max (w.statWorkTime now) (1 / 1000000 : ℚ)

/-! ### The worker's main-loop helpers (`WorkerThread.run`, lines 120–178) -/

/-- The per-worker owned-connection mapping `conn_socks`: an insertion-ordered
dict from socket to `(connection, last_active_timestamp)`. -/
abbrev ConnSocks := List (Nat × Conn × ℚ)

/-- Observable effects of a worker on its connections, in program order. -/
inductive WEvent where
  /-- `conn.communicate()` inside `process_conns`, invoked while
  `self.conn` holds the value recorded in the first argument
  (`none` would mean the worker's conn field was unset). -/
  | processCall (connField : Option Nat) (socket : Nat)
  /-- `conn.close()`. -/
  | closeConn (socket : Nat)
  /-- `conn.communicate()` inside `close_conns` (the courtesy 408 flush). -/
  | courtesyFlush (socket : Nat)
  /-- `conn_socks.pop(socket)`. -/
  | popSock (socket : Nat)
deriving DecidableEq

/-- `WorkerThread.conn_expired(last_active, cur_time)`:
`cur_time - last_active > srv_timeout` where `srv_timeout` is the pool-wide
`self.server.timeout`. -/
def WorkerThread.conn_expired (srv_timeout last_active cur_time : ℚ) : Bool :=
  decide (srv_timeout < cur_time - last_active)

/-- `WorkerThread.get_expired_conns(conn_socks, cur_time)`: all owned
connections whose `cur_time - last_active` strictly exceeds the timeout, in
dict order (the generator snapshots `tuple(conn_socks.values())`). -/
def WorkerThread.get_expired_conns (conn_socks : ConnSocks)
    (srv_timeout cur_time : ℚ) : List Conn :=
  (conn_socks.filter
      (fun e => WorkerThread.conn_expired srv_timeout e.2.2 cur_time)).map
    (fun e => e.2.1)

/-- `WorkerThread.close_conns(conn_list, conn_socks)`: for each connection, in
order: `conn.communicate()` (courtesy 408), `conn.close()`,
`conn_socks.pop(conn.socket)`.  Returns the updated mapping and the trace. -/
def WorkerThread.close_conns :
    List Conn → ConnSocks → ConnSocks × List WEvent
  | [], conn_socks => (conn_socks, [])
  | c :: rest, conn_socks =>
    let cs1 := conn_socks.eraseP (fun e => e.1 == c.socket)
    let r := WorkerThread.close_conns rest cs1
    (r.1, WEvent.courtesyFlush c.socket :: WEvent.closeConn c.socket ::
          WEvent.popSock c.socket :: r.2)

/-- `WorkerThread.process_conns(conn_socks)`.  The readiness multiplexing
(`select.select` over the still-valid sockets) is external I/O; its result is
the parameter `rlist` (a subset of the mapping's keys).  Whether
`conn.communicate()` raises is likewise external; it is the oracle `fails`.
For each ready socket the source looks the connection up, sets `self.conn`,
invokes `communicate`; on an exception the connection is closed and popped,
otherwise its entry is overwritten with `(conn, time.time())` (same key, so
same dict position); finally `self.conn` is reset to `None`.  A socket absent
from the mapping would raise `KeyError` in the source; the model skips it
(`rlist ⊆ keys` holds whenever `rlist` comes from `select`).  Arguments:
the worker's current `self.conn` field, the mapping, `rlist`, the failure
oracle, and the `time.time()` value used for refreshed timestamps.  Returns
the final `self.conn` field, the final mapping, and the trace. -/
def WorkerThread.process_conns (wconn : Option Conn) (conn_socks : ConnSocks)
    (rlist : List Nat) (fails : Conn → Bool) (now : ℚ) :
    Option Conn × ConnSocks × List WEvent :=
  match rlist with
  | [] => (wconn, conn_socks, [])
  | s :: rest =>
    match conn_socks.find? (fun e => e.1 == s) with
    | none => WorkerThread.process_conns wconn conn_socks rest fails now
    | some e =>
      let c := e.2.1
      if fails c then
        let cs1 := conn_socks.eraseP (fun e' => e'.1 == c.socket)
        let r := WorkerThread.process_conns none cs1 rest fails now
        (r.1, r.2.1,
          WEvent.processCall (some c.socket) c.socket ::
          WEvent.closeConn c.socket :: WEvent.popSock c.socket :: r.2.2)
      else
        let cs1 := conn_socks.map
          (fun e' => if e'.1 == c.socket then (e'.1, c, now) else e')
        let r := WorkerThread.process_conns none cs1 rest fails now
        (r.1, r.2.1, WEvent.processCall (some c.socket) c.socket :: r.2.2)

/-! ### A behavioural model of `ThreadPool.stop` (lines 283–326)

`stop` first puts one sentinel per worker on the queue, then repeatedly pops a
worker from `_threads` and, unless it is the calling thread or already dead,
joins it.  With `timeout` unset or negative the join is unbounded; otherwise
the join is bounded by the time remaining until the shared deadline
`endtime = time.time() + timeout`, and a worker still alive after that has the
read half of its in-flight connection's socket shut down — but only when
`worker.conn` is set and its `rfile` is not already closed — followed by an
*unbounded* `worker.join()`.

A worker's runtime behaviour during `stop` is external to the pool, so it is
an oracle: `term_time` is the absolute instant at which the worker terminates
of its own accord (`none` = never, e.g. stuck inside `process()`);
`unblock_delay` is how long after a read-half shutdown its `process()` call
returns (`none` = the shutdown does not unblock it, e.g. the handler never
touches the socket).  Time is modelled by `Int` instants; only order and
addition are used.  The model returns `none` when `stop` never returns. -/

/-- Oracle view of the connection `worker.conn` during `stop`. -/
structure StopConn where
  socket : Nat
  rfile_closed : Bool
deriving DecidableEq

/-- Oracle view of one worker during `stop` (see the section comment). -/
structure StopWorker where
  id : Nat
  is_current : Bool
  term_time : Option Int
  conn : Option StopConn
  unblock_delay : Option Int
deriving DecidableEq

/-- `worker.isAlive()` at instant `t`. -/
def StopWorker.aliveAt (w : StopWorker) (t : Int) : Bool :=
  match w.term_time with
  | none => true
  | some tt => decide (t < tt)

/-- The instant at which `worker.join(dur)` called at instant `t` returns:
as soon as the worker is dead, at latest at `t + dur`. -/
def StopWorker.joinUpTo (w : StopWorker) (t dur : Int) : Int :=
  match w.term_time with
  | none => t + dur
  | some tt => Min.min (Max.max t tt) (t + dur)

/-- The worker's termination instant after its connection's read half is shut
down at instant `t`: the earlier of its own termination and the unblocking. -/
def StopWorker.termAfterShutdown (w : StopWorker) (t : Int) : Option Int :=
  match w.term_time, w.unblock_delay with
  | some tt, some d => some (Min.min tt (t + d))
  | some tt, none => some tt
  | none, some d => some (t + d)
  | none, none => none

/-- Observable actions of `ThreadPool.stop`, in program order. -/
inductive StopEvent where
  /-- `self._queue.put(_SHUTDOWNREQUEST)`. -/
  | sentinel
  /-- `worker.join(remaining_time)`: a join bounded by the shared deadline
  `endAt` (`= endtime`). -/
  | joinDeadline (id : Nat) (endAt : Int)
  /-- `c.socket.shutdown(socket.SHUT_RD)` on worker `id`'s connection. -/
  | shutdownRead (id : Nat) (socket : Nat)
  /-- An unbounded `worker.join()`. -/
  | joinForever (id : Nat)
deriving DecidableEq

/-- One iteration of `stop`'s `while self._threads` loop body for worker `w`
at instant `t`.  `endtimeOpt = none` models `timeout is None or timeout < 0`
(join indefinitely); `endtimeOpt = some endtime` the bounded regime.  Returns
the instant at which the iteration completes and its events, or `none` if the
iteration never returns (an unbounded join of a worker that never dies). -/
def stopStep (endtimeOpt : Option Int) (t : Int) (w : StopWorker) :
    Option (Int × List StopEvent) :=
  if w.is_current || !(w.aliveAt t) then some (t, [])
  else
    match endtimeOpt with
    | none =>
      match w.term_time with
      | none => none
      | some tt => some (Max.max t tt, [StopEvent.joinForever w.id])
    | some endtime =>
      let remaining := endtime - t
      let t1 := if 0 < remaining then w.joinUpTo t remaining else t
      let ev1 : List StopEvent :=
        if 0 < remaining then [StopEvent.joinDeadline w.id endtime] else []
      if w.aliveAt t1 then
        let sev : List StopEvent :=
          match w.conn with
          | some c =>
            if c.rfile_closed then [] else [StopEvent.shutdownRead w.id c.socket]
          | none => []
        let tfin : Option Int :=
          match w.conn with
          | some c =>
            if c.rfile_closed then w.term_time else w.termAfterShutdown t1
          | none => w.term_time
        match tfin with
        | none => none
        | some tt =>
          some (Max.max t1 tt, ev1 ++ sev ++ [StopEvent.joinForever w.id])
      else some (t1, ev1)

/-- The `while self._threads` loop of `stop`, processing workers in pop order
(the list argument is already reversed). -/
def stopJoinLoop (endtimeOpt : Option Int) :
    Int → List StopWorker → Option (Int × List StopEvent)
  | t, [] => some (t, [])
  | t, w :: rest =>
    (stopStep endtimeOpt t w).bind fun r =>
      (stopJoinLoop endtimeOpt r.1 rest).map fun r2 => (r2.1, r.2 ++ r2.2)

/-- `ThreadPool.stop(timeout)` over the worker oracles: one sentinel per
worker, then the join loop over `_threads` popped from the tail.
`timeout = none` is Python `timeout=None`.  Returns the instant at which
`stop` returns and its event trace, or `none` if `stop` never returns. -/
def ThreadPool.stop (timeout : Option Int) (t0 : Int)
    (workers : List StopWorker) : Option (Int × List StopEvent) :=
  let sentinels : List StopEvent := workers.map (fun _ => StopEvent.sentinel)
  let endtimeOpt : Option Int :=
    match timeout with
    | none => none
    | some tmo => if 0 ≤ tmo then some (t0 + tmo) else none
  (stopJoinLoop endtimeOpt t0 workers.reverse).map
    (fun r => (r.1, sentinels ++ r.2))

/-! ### Claim theorems -/

/-- C2: the claim says that every already-dead worker in the live list is
removed by `shrink`'s pruning pass, each removal decrementing `amount` by
one.  The code contradicts its own comment ("Remove any dead threads from our
list"): it mutates `self._threads` while iterating over it, so of two
*adjacent* dead workers only the first is removed.  Concretely, for a pool
whose live list holds exactly two dead workers, `shrink(2)` leaves the second
dead worker in the list and decrements `amount` only once. -/
theorem shrink_skips_adjacent_dead :
    (ThreadPool.shrink
        ⟨0, -1, [⟨0, false, true, none, 0, 0, 0, none, 0⟩,
                 ⟨1, false, true, none, 0, 0, 0, none, 0⟩], ⟨-1, []⟩, 10⟩
        2).1.threads
      = [⟨1, false, true, none, 0, 0, 0, none, 0⟩] ∧
    (⟨1, false, true, none, 0, 0, 0, none, 0⟩ : WorkerThread).alive = false ∧
    (pruneLoop [⟨0, false, true, none, 0, 0, 0, none, 0⟩,
                ⟨1, false, true, none, 0, 0, 0, none, 0⟩] 0 2).2 = 1 := by
  refine ⟨?_, rfl, ?_⟩ <;> simp [ThreadPool.shrink, pruneLoop, List.erase]

/-- C3: the number of sentinels `shrink(amount)` enqueues equals the smaller
of the remaining amount after the pruning pass and the number of workers of
the (pruned) live list above `min`; exactly that many sentinels are appended
to the queue; and since each consumed sentinel terminates one worker, the
live count after all of them are consumed stays at or above `min` whenever it
was at or above `min` after pruning.  (Stated for a nonnegative remaining
amount; the nonpositive case is the subject of
`shrink_nonpositive_no_sentinels`.) -/
theorem shrink_sentinel_count (p : ThreadPool) (amount : Int)
    (h : 0 ≤ (pruneLoop p.threads 0 amount).2) :
    ((ThreadPool.shrink p amount).2 : Int) =
      Min.min (pruneLoop p.threads 0 amount).2
        (Max.max (((pruneLoop p.threads 0 amount).1.length : Int) - p.min) 0) ∧
    (ThreadPool.shrink p amount).1.threads = (pruneLoop p.threads 0 amount).1 ∧
    (ThreadPool.shrink p amount).1.queue.items =
      p.queue.items ++ List.replicate (ThreadPool.shrink p amount).2 none ∧
    (p.min ≤ ((pruneLoop p.threads 0 amount).1.length : Int) →
      p.min ≤ ((pruneLoop p.threads 0 amount).1.length : Int)
        - ((ThreadPool.shrink p amount).2 : Int)) := by
  simp only [ThreadPool.shrink]
  refine ⟨by omega, by trivial, by trivial, fun hmin => by omega⟩

/-- Witness for `shrink_sentinel_count`: a pool with `min = 0` and one live
worker, `shrink(1)`; the pruning pass removes nothing, one sentinel goes out,
and the post-consumption count `0` is still `≥ min`. -/
theorem shrink_sentinel_count_witness :
    ((ThreadPool.shrink ⟨0, -1, [⟨5, true, true, none, 0, 0, 0, none, 0⟩],
        ⟨-1, []⟩, 10⟩ 1).2 : Int) =
      Min.min (pruneLoop [⟨5, true, true, none, 0, 0, 0, none, 0⟩] 0 1).2
        (Max.max
          (((pruneLoop [⟨5, true, true, none, 0, 0, 0, none, 0⟩] 0 1).1.length : Int)
            - (0 : Int)) 0) ∧
    (ThreadPool.shrink ⟨0, -1, [⟨5, true, true, none, 0, 0, 0, none, 0⟩],
        ⟨-1, []⟩, 10⟩ 1).1.threads =
      (pruneLoop [⟨5, true, true, none, 0, 0, 0, none, 0⟩] 0 1).1 ∧
    (ThreadPool.shrink ⟨0, -1, [⟨5, true, true, none, 0, 0, 0, none, 0⟩],
        ⟨-1, []⟩, 10⟩ 1).1.queue.items =
      [] ++ List.replicate
        (ThreadPool.shrink ⟨0, -1, [⟨5, true, true, none, 0, 0, 0, none, 0⟩],
          ⟨-1, []⟩, 10⟩ 1).2 none ∧
    ((0 : Int) ≤ ((pruneLoop [⟨5, true, true, none, 0, 0, 0, none, 0⟩] 0 1).1.length : Int) →
      (0 : Int) ≤ ((pruneLoop [⟨5, true, true, none, 0, 0, 0, none, 0⟩] 0 1).1.length : Int)
        - ((ThreadPool.shrink ⟨0, -1, [⟨5, true, true, none, 0, 0, 0, none, 0⟩],
            ⟨-1, []⟩, 10⟩ 1).2 : Int)) :=
  shrink_sentinel_count
    ⟨0, -1, [⟨5, true, true, none, 0, 0, 0, none, 0⟩], ⟨-1, []⟩, 10⟩ 1
    (by simp [pruneLoop])

/-- C10: when the pruning pass has already consumed the whole `amount`
(remaining amount zero or negative), `shrink` enqueues no sentinels at all:
`n_to_remove = min(amount, n_extra) ≤ 0` and `range` of a nonpositive number
is empty, so the negative remainder is never read as a request to terminate
live workers, and the queue is left untouched. -/
theorem shrink_nonpositive_no_sentinels (p : ThreadPool) (amount : Int)
    (h : (pruneLoop p.threads 0 amount).2 ≤ 0) :
    (ThreadPool.shrink p amount).2 = 0 ∧
    (ThreadPool.shrink p amount).1.queue.items = p.queue.items := by
  simp only [ThreadPool.shrink]
  have hk : (Min.min (pruneLoop p.threads 0 amount).2
      (Max.max (((pruneLoop p.threads 0 amount).1.length : Int) - p.min) 0)).toNat
      = 0 := by omega
  simp [hk]

/-- Witness for `shrink_nonpositive_no_sentinels`: one dead worker, so
`shrink(1)`'s pruning pass brings the remaining amount to `0`, and no
sentinel is enqueued. -/
theorem shrink_nonpositive_no_sentinels_witness :
    (ThreadPool.shrink ⟨0, -1, [⟨3, false, true, none, 0, 0, 0, none, 0⟩],
        ⟨-1, []⟩, 10⟩ 1).2 = 0 ∧
    (ThreadPool.shrink ⟨0, -1, [⟨3, false, true, none, 0, 0, 0, none, 0⟩],
        ⟨-1, []⟩, 10⟩ 1).1.queue.items = [] :=
  shrink_nonpositive_no_sentinels
    ⟨0, -1, [⟨3, false, true, none, 0, 0, 0, none, 0⟩], ⟨-1, []⟩, 10⟩ 1
    (by simp [pruneLoop, List.erase])

/-- C4 counterexample: the claim says that with `max > 0` the live worker
count resulting from `grow` never exceeds `max`.  But `grow` only clamps the
number of *new* workers; a pool that already holds more than `max` workers
(reachable: `start()` spawns `min` workers without consulting `max`, e.g.
`min = 2, max = 1`) still exceeds `max` after `grow(1)`. -/
theorem grow_exceeds_max_cex :
    0 < (⟨2, 1, [⟨0, true, true, none, 0, 0, 0, none, 0⟩,
                 ⟨1, true, true, none, 0, 0, 0, none, 0⟩],
          ⟨-1, []⟩, 10⟩ : ThreadPool).max ∧
    ((⟨2, 1, [⟨0, true, true, none, 0, 0, 0, none, 0⟩,
              ⟨1, true, true, none, 0, 0, 0, none, 0⟩],
        ⟨-1, []⟩, 10⟩ : ThreadPool).max : Int)
      < ((ThreadPool.grow
            ⟨2, 1, [⟨0, true, true, none, 0, 0, 0, none, 0⟩,
                    ⟨1, true, true, none, 0, 0, 0, none, 0⟩],
              ⟨-1, []⟩, 10⟩ 1).1.threads.length : Int) := by
  constructor <;> decide

/-- C4 as amended: for `amount ≥ 0`, `grow(amount)` appends exactly the
spawned workers, all of which report ready before being appended; with
`max > 0` it spawns at most `max(max - current, 0)` workers, so the resulting
count stays at or below `max` whenever the current count was; with `max ≤ 0`
it spawns exactly `amount` workers, increasing the live count by exactly
`amount`. -/
theorem grow_amended_spec (p : ThreadPool) (amount : Int) (h : 0 ≤ amount) :
    (ThreadPool.grow p amount).1.threads =
      p.threads ++ (ThreadPool.grow p amount).2 ∧
    (∀ w ∈ (ThreadPool.grow p amount).2, w.ready = true) ∧
    (0 < p.max →
      (((ThreadPool.grow p amount).2.length : Int) ≤
        Max.max (p.max - (p.threads.length : Int)) 0) ∧
      ((p.threads.length : Int) ≤ p.max →
        (((ThreadPool.grow p amount).1.threads.length : Int) ≤ p.max))) ∧
    (p.max ≤ 0 →
      ((ThreadPool.grow p amount).2.length : Int) = amount ∧
      ((ThreadPool.grow p amount).1.threads.length : Int)
        = (p.threads.length : Int) + amount) := by
  simp only [ThreadPool.grow, waitAllReady]
  refine ⟨by trivial, ?_, ?_, ?_⟩
  · intro w hw
    simp only [List.mem_map] at hw
    obtain ⟨w0, _, rfl⟩ := hw
    rfl
  · intro hmax
    simp only [List.length_append, List.length_map, List.length_range,
      if_pos hmax]
    omega
  · intro hmax
    have : ¬ 0 < p.max := by omega
    simp only [List.length_append, List.length_map, List.length_range,
      if_neg this]
    omega

/-- Witness for `grow_amended_spec`: an unbounded pool (`max = -1`) with no
workers grows by exactly 2 ready workers. -/
theorem grow_amended_spec_witness :
    (ThreadPool.grow ⟨0, -1, [], ⟨-1, []⟩, 10⟩ 2).1.threads =
      [] ++ (ThreadPool.grow ⟨0, -1, [], ⟨-1, []⟩, 10⟩ 2).2 ∧
    (∀ w ∈ (ThreadPool.grow ⟨0, -1, [], ⟨-1, []⟩, 10⟩ 2).2, w.ready = true) ∧
    (0 < (-1 : Int) →
      (((ThreadPool.grow ⟨0, -1, [], ⟨-1, []⟩, 10⟩ 2).2.length : Int) ≤
        Max.max ((-1 : Int) - (([] : List WorkerThread).length : Int)) 0) ∧
      ((([] : List WorkerThread).length : Int) ≤ (-1 : Int) →
        (((ThreadPool.grow ⟨0, -1, [], ⟨-1, []⟩, 10⟩ 2).1.threads.length : Int)
          ≤ (-1 : Int)))) ∧
    ((-1 : Int) ≤ 0 →
      ((ThreadPool.grow ⟨0, -1, [], ⟨-1, []⟩, 10⟩ 2).2.length : Int) = 2 ∧
      ((ThreadPool.grow ⟨0, -1, [], ⟨-1, []⟩, 10⟩ 2).1.threads.length : Int)
        = (([] : List WorkerThread).length : Int) + 2) :=
  grow_amended_spec ⟨0, -1, [], ⟨-1, []⟩, 10⟩ 2 (by norm_num)

/-- C8: `put` on a full bounded queue blocks for the whole configured
submission timeout (`_queue_put_timeout`; no consumer can free a slot while
the caller holds the request) and then fails with the queue-full error; `put`
on a non-full queue appends the item and returns immediately (zero blocking);
and a sentinel (`None`) submitted through `put` goes through exactly the same
queue path. -/
theorem put_queue_full_spec (p : ThreadPool) (obj : Option Conn) :
    (p.queue.full = true →
      (ThreadPool.put p obj).1 = Except.error () ∧
      (ThreadPool.put p obj).2 = p.queue_put_timeout) ∧
    (p.queue.full = false →
      (ThreadPool.put p obj).1 =
        Except.ok ⟨p.queue.maxsize, p.queue.items ++ [obj]⟩ ∧
      (ThreadPool.put p obj).2 = 0) ∧
    ThreadPool.put p none = PyQueue.put p.queue none p.queue_put_timeout := by
  unfold ThreadPool.put PyQueue.put
  refine ⟨fun h => ?_, fun h => ?_, rfl⟩ <;> simp [h]

/-- Witness for `put_queue_full_spec`: a bounded queue of capacity 1 holding
one item is full, so `put` fails with the queue-full error after blocking for
the configured 10-unit timeout. -/
theorem put_queue_full_spec_witness :
    ((⟨0, -1, [], ⟨1, [none]⟩, 10⟩ : ThreadPool).queue.full = true →
      (ThreadPool.put ⟨0, -1, [], ⟨1, [none]⟩, 10⟩ none).1 = Except.error () ∧
      (ThreadPool.put ⟨0, -1, [], ⟨1, [none]⟩, 10⟩ none).2 = 10) ∧
    ((⟨0, -1, [], ⟨1, [none]⟩, 10⟩ : ThreadPool).queue.full = false →
      (ThreadPool.put ⟨0, -1, [], ⟨1, [none]⟩, 10⟩ none).1 =
        Except.ok ⟨1, [none] ++ [none]⟩ ∧
      (ThreadPool.put ⟨0, -1, [], ⟨1, [none]⟩, 10⟩ none).2 = 0) ∧
    ThreadPool.put ⟨0, -1, [], ⟨1, [none]⟩, 10⟩ none =
      PyQueue.put (⟨1, [none]⟩ : PyQueue (Option Conn)) none 10 :=
  put_queue_full_spec ⟨0, -1, [], ⟨1, [none]⟩, 10⟩ none

/-- C9 counterexample: the claim says throughput = bytes ÷ max(work time, ε)
with ε = 1e-6.  The source computes `bytes / (work_time or 1e-6)`, and
Python's `or` falls back to `1e-6` only when the work time is *exactly* zero:
for a worker whose accumulated work time is `5e-7` (positive but below ε) the
source divides by `5e-7` itself, not by `max(5e-7, 1e-6) = 1e-6`. -/
theorem throughput_or_ne_max_cex :
    WorkerThread.statReadThroughput
        ⟨0, true, true, none, 0, 1, 0, none, 1 / 2000000⟩ 0 ≠
      WorkerThread.specReadThroughputMax
        ⟨0, true, true, none, 0, 1, 0, none, 1 / 2000000⟩ 0 := by
  norm_num [WorkerThread.statReadThroughput, WorkerThread.specReadThroughputMax,
    WorkerThread.statBytesRead, WorkerThread.statWorkTime]

/-- C9 as amended: the derived read/write throughputs equal the corresponding
byte figure divided by the work-time figure when the latter is nonzero, and
by ε = 1e-6 when it is exactly zero — so the divisor is never zero; and the
byte and time figures add the live counters of the connection currently
mid-processing (`start_time` set) to the worker's banked totals, while a
worker not mid-processing (`start_time` unset) reports exactly its banked
totals. -/
theorem stats_throughput_amended (w : WorkerThread) (now : ℚ) :
    (if w.statWorkTime now = 0 then (1 / 1000000 : ℚ)
     else w.statWorkTime now) ≠ 0 ∧
    w.statReadThroughput now *
      (if w.statWorkTime now = 0 then (1 / 1000000 : ℚ)
       else w.statWorkTime now) = w.statBytesRead ∧
    w.statWriteThroughput now *
      (if w.statWorkTime now = 0 then (1 / 1000000 : ℚ)
       else w.statWorkTime now) = w.statBytesWritten ∧
    (w.start_time = none →
      w.statBytesRead = w.bytes_read ∧
      w.statBytesWritten = w.bytes_written ∧
      w.statWorkTime now = w.work_time) ∧
    (∀ st c, w.start_time = some st → w.conn = some c →
      w.statBytesRead = w.bytes_read + c.rfile_bytes_read ∧
      w.statBytesWritten = w.bytes_written + c.wfile_bytes_written ∧
      w.statWorkTime now = w.work_time + (now - st)) := by
  have hd : (if w.statWorkTime now = 0 then (1 / 1000000 : ℚ)
      else w.statWorkTime now) ≠ 0 := by
    by_cases h : w.statWorkTime now = 0 <;> simp [h]
  refine ⟨hd, ?_, ?_, fun h => ?_, fun st c hst hc => ?_⟩
  · rw [WorkerThread.statReadThroughput, div_mul_cancel₀ _ hd]
  · rw [WorkerThread.statWriteThroughput, div_mul_cancel₀ _ hd]
  · simp [WorkerThread.statBytesRead, WorkerThread.statBytesWritten,
      WorkerThread.statWorkTime, h]
  · simp [WorkerThread.statBytesRead, WorkerThread.statBytesWritten,
      WorkerThread.statWorkTime, hst, hc]

/-- Witness for `stats_throughput_amended`: a worker mid-processing a
connection that has read 7 bytes, with banked totals 1 byte / 2 time units;
sampled at time 5 with `start_time = 3`. -/
theorem stats_throughput_amended_witness :
    (if WorkerThread.statWorkTime
          ⟨0, true, true, some ⟨9, 1, 7, 4, false⟩, 0, 1, 0, some 3, 2⟩ 5 = 0
     then (1 / 1000000 : ℚ)
     else WorkerThread.statWorkTime
        ⟨0, true, true, some ⟨9, 1, 7, 4, false⟩, 0, 1, 0, some 3, 2⟩ 5) ≠ 0 ∧
    WorkerThread.statReadThroughput
        ⟨0, true, true, some ⟨9, 1, 7, 4, false⟩, 0, 1, 0, some 3, 2⟩ 5 *
      (if WorkerThread.statWorkTime
            ⟨0, true, true, some ⟨9, 1, 7, 4, false⟩, 0, 1, 0, some 3, 2⟩ 5 = 0
       then (1 / 1000000 : ℚ)
       else WorkerThread.statWorkTime
          ⟨0, true, true, some ⟨9, 1, 7, 4, false⟩, 0, 1, 0, some 3, 2⟩ 5) =
      WorkerThread.statBytesRead
        ⟨0, true, true, some ⟨9, 1, 7, 4, false⟩, 0, 1, 0, some 3, 2⟩ ∧
    WorkerThread.statWriteThroughput
        ⟨0, true, true, some ⟨9, 1, 7, 4, false⟩, 0, 1, 0, some 3, 2⟩ 5 *
      (if WorkerThread.statWorkTime
            ⟨0, true, true, some ⟨9, 1, 7, 4, false⟩, 0, 1, 0, some 3, 2⟩ 5 = 0
       then (1 / 1000000 : ℚ)
       else WorkerThread.statWorkTime
          ⟨0, true, true, some ⟨9, 1, 7, 4, false⟩, 0, 1, 0, some 3, 2⟩ 5) =
      WorkerThread.statBytesWritten
        ⟨0, true, true, some ⟨9, 1, 7, 4, false⟩, 0, 1, 0, some 3, 2⟩ ∧
    ((⟨0, true, true, some ⟨9, 1, 7, 4, false⟩, 0, 1, 0, some 3, 2⟩ :
        WorkerThread).start_time = none →
      WorkerThread.statBytesRead
          ⟨0, true, true, some ⟨9, 1, 7, 4, false⟩, 0, 1, 0, some 3, 2⟩ = 1 ∧
      WorkerThread.statBytesWritten
          ⟨0, true, true, some ⟨9, 1, 7, 4, false⟩, 0, 1, 0, some 3, 2⟩ = 0 ∧
      WorkerThread.statWorkTime
          ⟨0, true, true, some ⟨9, 1, 7, 4, false⟩, 0, 1, 0, some 3, 2⟩ 5 = 2) ∧
    (∀ st c,
      (⟨0, true, true, some ⟨9, 1, 7, 4, false⟩, 0, 1, 0, some 3, 2⟩ :
        WorkerThread).start_time = some st →
      (⟨0, true, true, some ⟨9, 1, 7, 4, false⟩, 0, 1, 0, some 3, 2⟩ :
        WorkerThread).conn = some c →
      WorkerThread.statBytesRead
          ⟨0, true, true, some ⟨9, 1, 7, 4, false⟩, 0, 1, 0, some 3, 2⟩ =
        1 + c.rfile_bytes_read ∧
      WorkerThread.statBytesWritten
          ⟨0, true, true, some ⟨9, 1, 7, 4, false⟩, 0, 1, 0, some 3, 2⟩ =
        0 + c.wfile_bytes_written ∧
      WorkerThread.statWorkTime
          ⟨0, true, true, some ⟨9, 1, 7, 4, false⟩, 0, 1, 0, some 3, 2⟩ 5 =
        2 + (5 - st)) :=
  stats_throughput_amended
    ⟨0, true, true, some ⟨9, 1, 7, 4, false⟩, 0, 1, 0, some 3, 2⟩ 5

/-! ### Helper lemmas about the owned-connection mapping -/

/-- With pairwise-distinct keys, removing the first entry with key `s` is the
same as filtering out every entry with key `s`. -/
theorem eraseKey_eq_filter (cs : ConnSocks) (s : Nat)
    (h : (cs.map (fun e => e.1)).Nodup) :
    cs.eraseP (fun e => e.1 == s) = cs.filter (fun e => !(e.1 == s)) := by
  induction cs with
  | nil => rfl
  | cons e0 t ih =>
    simp only [List.map_cons, List.nodup_cons] at h
    by_cases h0 : e0.1 = s
    · rw [List.eraseP_cons_of_pos (by simp [h0]),
        List.filter_cons_of_neg (by simp [h0])]
      refine (List.filter_eq_self.mpr fun e he => ?_).symm
      have hne : e.1 ≠ s := by
        intro hes
        exact h.1 (List.mem_map.mpr ⟨e, he, by rw [hes, h0]⟩)
      simp [hne]
    · rw [List.eraseP_cons_of_neg (by simp [h0]),
        List.filter_cons_of_pos (by simp [h0]), ih h.2]

/-- The event trace of `close_conns`: per connection, in order, the courtesy
flush, the close, and the pop. -/
theorem close_conns_events (conns : List Conn) (cs : ConnSocks) :
    (WorkerThread.close_conns conns cs).2
      = conns.flatMap (fun c =>
          [WEvent.courtesyFlush c.socket, WEvent.closeConn c.socket,
           WEvent.popSock c.socket]) := by
  induction conns generalizing cs with
  | nil => rfl
  | cons c rest ih => simp [WorkerThread.close_conns, ih]

/-- The final mapping of `close_conns`: with pairwise-distinct keys, exactly
the entries whose key is the socket of a listed connection are removed. -/
theorem close_conns_state (conns : List Conn) (cs : ConnSocks)
    (h : (cs.map (fun e => e.1)).Nodup) :
    (WorkerThread.close_conns conns cs).1
      = cs.filter (fun e => !(decide (e.1 ∈ conns.map Conn.socket))) := by
  induction conns generalizing cs with
  | nil => simp [WorkerThread.close_conns]
  | cons c rest ih =>
    simp only [WorkerThread.close_conns]
    rw [eraseKey_eq_filter cs c.socket h]
    rw [ih _ (h.sublist ((List.filter_sublist cs).map (fun e => e.1)))]
    rw [List.filter_filter]
    refine List.filter_congr fun e he => ?_
    by_cases h1 : e.1 = c.socket <;>
      by_cases h2 : e.1 ∈ rest.map Conn.socket <;>
      simp [h1, h2, List.mem_cons]

/-- A member's image is a sublist of the flat map. -/
theorem sublist_flatMap_of_mem {α β : Type} (f : α → List β) {x : α}
    {l : List α} (hx : x ∈ l) : List.Sublist (f x) (l.flatMap f) := by
  induction l with
  | nil => cases hx
  | cons a t ih =>
    rcases List.mem_cons.mp hx with rfl | h
    · rw [List.flatMap_cons]
      exact List.sublist_append_left (f x) (t.flatMap f)
    · exact (ih h).trans (List.sublist_append_right (f a) (t.flatMap f))

/-- C6: on an expiry sweep at time `cur_time` (the composition of
`get_expired_conns` and `close_conns` executed at the end of each `run`
iteration), a connection is expired exactly when `cur_time - last_active`
*strictly* exceeds the pool-wide timeout; every expired connection is told to
flush pending output, then closed, then removed from the owned mapping (in
that order), and every non-expired connection is kept untouched — neither
closed nor popped ("not before").  Hypotheses: socket keys are pairwise
distinct and each entry is keyed by its connection's socket (invariants of
`run`, which keys insertions by `conn.socket`). -/
theorem expiry_sweep_spec (cs : ConnSocks) (srv_timeout cur_time : ℚ)
    (hkeys : (cs.map (fun e => e.1)).Nodup)
    (hcoh : ∀ e ∈ cs, e.2.1.socket = e.1)
    (cs1 : ConnSocks) (evs : List WEvent)
    (hrun : WorkerThread.close_conns
        (WorkerThread.get_expired_conns cs srv_timeout cur_time) cs
      = (cs1, evs)) :
    (∀ la, WorkerThread.conn_expired srv_timeout la cur_time = true ↔
        srv_timeout < cur_time - la) ∧
    ∀ e ∈ cs,
      (WorkerThread.conn_expired srv_timeout e.2.2 cur_time = true →
        (∀ e1 ∈ cs1, e1.1 ≠ e.1) ∧
        List.Sublist [WEvent.courtesyFlush e.1, WEvent.closeConn e.1,
          WEvent.popSock e.1] evs) ∧
      (WorkerThread.conn_expired srv_timeout e.2.2 cur_time = false →
        e ∈ cs1 ∧ WEvent.closeConn e.1 ∉ evs ∧ WEvent.popSock e.1 ∉ evs) := by
  have hcs1 : cs1 = (WorkerThread.close_conns
      (WorkerThread.get_expired_conns cs srv_timeout cur_time) cs).1 := by
    rw [hrun]
  have hevs : evs = (WorkerThread.close_conns
      (WorkerThread.get_expired_conns cs srv_timeout cur_time) cs).2 := by
    rw [hrun]
  subst hcs1; subst hevs
  rw [close_conns_state _ _ hkeys, close_conns_events]
  refine ⟨fun la => by simp [WorkerThread.conn_expired], fun e he => ?_⟩
  constructor
  · intro hexp
    have heE : e.2.1 ∈ WorkerThread.get_expired_conns cs srv_timeout cur_time :=
      List.mem_map.mpr ⟨e, List.mem_filter.mpr ⟨he, hexp⟩, rfl⟩
    have hs : e.1 ∈ (WorkerThread.get_expired_conns cs srv_timeout
        cur_time).map Conn.socket :=
      List.mem_map.mpr ⟨e.2.1, heE, hcoh e he⟩
    constructor
    · intro e1 he1
      have := (List.mem_filter.mp he1).2
      simp only [Bool.not_eq_true', decide_eq_false_iff_not] at this
      intro h1
      exact this (h1 ▸ hs)
    · have hsub := sublist_flatMap_of_mem
        (fun c => [WEvent.courtesyFlush c.socket, WEvent.closeConn c.socket,
          WEvent.popSock c.socket]) heE
      simpa only [hcoh e he] using hsub
  · intro hexp
    have hs : e.1 ∉ (WorkerThread.get_expired_conns cs srv_timeout
        cur_time).map Conn.socket := by
      intro hmem
      obtain ⟨c1, hc1, hc1s⟩ := List.mem_map.mp hmem
      unfold WorkerThread.get_expired_conns at hc1
      obtain ⟨e1, he1, he1c⟩ := List.mem_map.mp hc1
      have he1cs : e1 ∈ cs := (List.mem_filter.mp he1).1
      have hkey : e1.1 = e.1 := by
        rw [← hcoh e1 he1cs, he1c, hc1s]
      have : e1 = e := List.inj_on_of_nodup_map hkeys he1cs he hkey
      rw [this] at he1
      have := (List.mem_filter.mp he1).2
      rw [hexp] at this
      cases this
    refine ⟨List.mem_filter.mpr ⟨he, by simp [hs]⟩, ?_, ?_⟩ <;>
    · intro hmem
      obtain ⟨c1, hc1, hc1e⟩ := List.mem_flatMap.mp hmem
      simp only [List.mem_cons, List.mem_singleton] at hc1e
      rcases hc1e with h1 | h1 | h1 | h1 <;> first
        | (cases h1)
        | (injection h1 with hx
           exact hs (List.mem_map.mpr ⟨c1, hc1, hx.symm⟩))

/-- `filterMap` after `filter` merges into one `filterMap`. -/
theorem filterMap_filter_eq {α β : Type} (q : α → Bool) (g : α → Option β)
    (l : List α) :
    (l.filter q).filterMap g
      = l.filterMap (fun a => if q a then g a else none) := by
  induction l with
  | nil => rfl
  | cons a t ih =>
    by_cases hq : q a <;>
      simp [List.filter_cons, hq, List.filterMap_cons, ih]

/-- Unfolding step for `process_conns` when the ready socket is present in
the mapping. -/
theorem process_conns_cons_some (wconn : Option Conn) (cs : ConnSocks)
    (s : Nat) (rest : List Nat) (fails : Conn → Bool) (now : ℚ)
    (e0 : Nat × Conn × ℚ)
    (he0 : cs.find? (fun e => e.1 == s) = some e0) :
    WorkerThread.process_conns wconn cs (s :: rest) fails now =
      (if fails e0.2.1 then
        ((WorkerThread.process_conns none
            (cs.eraseP (fun e1 => e1.1 == e0.2.1.socket)) rest fails now).1,
         (WorkerThread.process_conns none
            (cs.eraseP (fun e1 => e1.1 == e0.2.1.socket)) rest fails now).2.1,
         WEvent.processCall (some e0.2.1.socket) e0.2.1.socket ::
           WEvent.closeConn e0.2.1.socket :: WEvent.popSock e0.2.1.socket ::
           (WorkerThread.process_conns none
            (cs.eraseP (fun e1 => e1.1 == e0.2.1.socket)) rest fails now).2.2)
      else
        ((WorkerThread.process_conns none
            (cs.map (fun e1 => if e1.1 == e0.2.1.socket then (e1.1, e0.2.1, now)
              else e1)) rest fails now).1,
         (WorkerThread.process_conns none
            (cs.map (fun e1 => if e1.1 == e0.2.1.socket then (e1.1, e0.2.1, now)
              else e1)) rest fails now).2.1,
         WEvent.processCall (some e0.2.1.socket) e0.2.1.socket ::
           (WorkerThread.process_conns none
            (cs.map (fun e1 => if e1.1 == e0.2.1.socket then (e1.1, e0.2.1, now)
              else e1)) rest fails now).2.2)) := by
  rw [WorkerThread.process_conns, he0]

/-- C7: for the worker's processing sweep (`process_conns`) over the ready
sockets `rlist` (select's output, so pairwise distinct and drawn from the
mapping's keys, which are pairwise distinct and each entry keyed by its
connection's socket): (1) the resulting mapping is the entry-wise image of
the old one — a ready connection whose `communicate` raises is dropped, a
ready connection whose `communicate` returns normally keeps its position with
its last-active timestamp refreshed in place to `now`, and a non-ready
connection is untouched — so a failure is contained to its own connection and
the loop continues unaffected; (2) every ready connection that fails is
closed; (3) no other connection is closed. -/
theorem process_conns_spec (rlist : List Nat) (cs : ConnSocks)
    (wconn : Option Conn) (fails : Conn → Bool) (now : ℚ)
    (hkeys : (cs.map (fun e => e.1)).Nodup)
    (hcoh : ∀ e ∈ cs, e.2.1.socket = e.1)
    (hnd : rlist.Nodup)
    (hsub : ∀ s ∈ rlist, s ∈ cs.map (fun e => e.1)) :
    (WorkerThread.process_conns wconn cs rlist fails now).2.1
      = cs.filterMap (fun e =>
          if e.1 ∈ rlist then
            (if fails e.2.1 then none else some (e.1, e.2.1, now))
          else some e) ∧
    (∀ e ∈ cs, e.1 ∈ rlist → fails e.2.1 = true →
      WEvent.closeConn e.1 ∈
        (WorkerThread.process_conns wconn cs rlist fails now).2.2) ∧
    (∀ e ∈ cs, e.1 ∉ rlist ∨ fails e.2.1 = false →
      WEvent.closeConn e.1 ∉
        (WorkerThread.process_conns wconn cs rlist fails now).2.2) := by
  induction rlist generalizing cs wconn hkeys hcoh with
  | nil =>
    refine ⟨?_, by simp, ?_⟩
    · simp [WorkerThread.process_conns]
    · intro e he hdisj
      simp [WorkerThread.process_conns]
  | cons s rest ih =>
    have hskey : s ∈ cs.map (fun e => e.1) := hsub s (List.mem_cons_self s rest)
    have hfindsome : (cs.find? (fun e => e.1 == s)).isSome := by
      obtain ⟨e, he, hek⟩ := List.mem_map.mp hskey
      exact List.find?_isSome.mpr ⟨e, he, by simp [hek]⟩
    obtain ⟨e0, he0⟩ := Option.isSome_iff_exists.mp hfindsome
    have he0mem : e0 ∈ cs := List.mem_of_find?_eq_some he0
    have he0key : e0.1 = s := by simpa using List.find?_some he0
    have hcsock : e0.2.1.socket = s := by rw [hcoh e0 he0mem, he0key]
    have hkeyinj : ∀ e ∈ cs, e.1 = s → e = e0 := fun e he hek =>
      List.inj_on_of_nodup_map hkeys he he0mem (by rw [hek, he0key])
    have hrestnd : rest.Nodup := (List.nodup_cons.mp hnd).2
    have hsnotin : s ∉ rest := (List.nodup_cons.mp hnd).1
    rw [process_conns_cons_some wconn cs s rest fails now e0 he0, hcsock]
    by_cases hf : fails e0.2.1 = true
    · rw [if_pos hf, eraseKey_eq_filter cs s hkeys]
      have hkeys1 : ((cs.filter (fun e1 => !(e1.1 == s))).map
          (fun e => e.1)).Nodup :=
        hkeys.sublist ((List.filter_sublist cs).map (fun e => e.1))
      have hcoh1 : ∀ e ∈ cs.filter (fun e1 => !(e1.1 == s)),
          e.2.1.socket = e.1 :=
        fun e he => hcoh e (List.mem_filter.mp he).1
      have hsub1 : ∀ s1 ∈ rest,
          s1 ∈ (cs.filter (fun e1 => !(e1.1 == s))).map (fun e => e.1) := by
        intro s1 hs1
        obtain ⟨e, he, hek⟩ :=
          List.mem_map.mp (hsub s1 (List.mem_cons_of_mem s hs1))
        have hne : s1 ≠ s := fun hss => hsnotin (hss ▸ hs1)
        refine List.mem_map.mpr ⟨e, List.mem_filter.mpr ⟨he, ?_⟩, hek⟩
        simp only [hek] at *
        simp [hne]
      have IH := ih (cs.filter (fun e1 => !(e1.1 == s))) none hkeys1 hcoh1
        hrestnd hsub1
      refine ⟨?_, ?_, ?_⟩
      · show (WorkerThread.process_conns none _ rest fails now).2.1 = _
        rw [IH.1, filterMap_filter_eq]
        refine List.filterMap_congr fun e he => ?_
        by_cases hek : e.1 = s
        · have heq := hkeyinj e he hek
          rw [heq, he0key]
          simp [hf]
        · simp [hek, List.mem_cons]
      · intro e he hrmem hfe
        by_cases hek : e.1 = s
        · simp [hek]
        · have hrest : e.1 ∈ rest := by
            rcases List.mem_cons.mp hrmem with h1 | h1
            · exact absurd h1 hek
            · exact h1
          have he1 : e ∈ cs.filter (fun e1 => !(e1.1 == s)) :=
            List.mem_filter.mpr ⟨he, by simp [hek]⟩
          have := IH.2.1 e he1 hrest hfe
          simp only [List.mem_cons]
          exact Or.inr (Or.inr (Or.inr this))
      · intro e he hdisj
        have hek : e.1 ≠ s := by
          intro hek
          have heq := hkeyinj e he hek
          rcases hdisj with hnin | hff
          · exact hnin (by rw [hek]; exact List.mem_cons_self s rest)
          · rw [heq, hf] at hff
            cases hff
        intro hmem
        simp only [List.mem_cons] at hmem
        rcases hmem with h | h | h | h
        · exact WEvent.noConfusion h
        · injection h with h1
          exact hek h1
        · exact WEvent.noConfusion h
        · have he1 : e ∈ cs.filter (fun e1 => !(e1.1 == s)) :=
            List.mem_filter.mpr ⟨he, by simp [hek]⟩
          have hdisj1 : e.1 ∉ rest ∨ fails e.2.1 = false := by
            rcases hdisj with hnin | hff
            · exact Or.inl fun hr => hnin (List.mem_cons_of_mem s hr)
            · exact Or.inr hff
          exact IH.2.2 e he1 hdisj1 h
    · rw [if_neg hf]
      rw [Bool.not_eq_true] at hf
      have hmapkeys : (cs.map (fun e1 => if e1.1 == s then (e1.1, e0.2.1, now)
          else e1)).map (fun e => e.1) = cs.map (fun e => e.1) := by
        rw [List.map_map]
        refine List.map_congr_left fun e he => ?_
        by_cases hek : e.1 = s <;> simp [hek]
      have hkeys1 : ((cs.map (fun e1 => if e1.1 == s then (e1.1, e0.2.1, now)
          else e1)).map (fun e => e.1)).Nodup := by rw [hmapkeys]; exact hkeys
      have hcoh1 : ∀ e ∈ cs.map (fun e1 => if e1.1 == s then (e1.1, e0.2.1, now)
          else e1), e.2.1.socket = e.1 := by
        intro e1 he1
        obtain ⟨e, he, rfl⟩ := List.mem_map.mp he1
        by_cases hek : e.1 = s
        · simp [hek, hcsock]
        · simp [hek, hcoh e he]
      have hsub1 : ∀ s1 ∈ rest,
          s1 ∈ (cs.map (fun e1 => if e1.1 == s then (e1.1, e0.2.1, now)
            else e1)).map (fun e => e.1) := by
        intro s1 hs1
        rw [hmapkeys]
        exact hsub s1 (List.mem_cons_of_mem s hs1)
      have IH := ih (cs.map (fun e1 => if e1.1 == s then (e1.1, e0.2.1, now)
        else e1)) none hkeys1 hcoh1 hrestnd hsub1
      refine ⟨?_, ?_, ?_⟩
      · show (WorkerThread.process_conns none _ rest fails now).2.1 = _
        rw [IH.1, List.filterMap_map]
        refine List.filterMap_congr fun e he => ?_
        by_cases hek : e.1 = s
        · have heq := hkeyinj e he hek
          rw [heq, he0key]
          simp [Function.comp, hf, hsnotin, he0key]
        · simp [Function.comp, hek, List.mem_cons]
      · intro e he hrmem hfe
        have hek : e.1 ≠ s := by
          intro hek
          have heq := hkeyinj e he hek
          rw [heq, hf] at hfe
          cases hfe
        have hrest : e.1 ∈ rest := by
          rcases List.mem_cons.mp hrmem with h1 | h1
          · exact absurd h1 hek
          · exact h1
        have he1 : e ∈ cs.map (fun e1 => if e1.1 == s then (e1.1, e0.2.1, now)
            else e1) := List.mem_map.mpr ⟨e, he, by simp [hek]⟩
        have := IH.2.1 e he1 hrest hfe
        simp only [List.mem_cons]
        exact Or.inr this
      · intro e he hdisj
        intro hmem
        simp only [List.mem_cons] at hmem
        rcases hmem with h | h
        · exact WEvent.noConfusion h
        · by_cases hek : e.1 = s
          · have heq := hkeyinj e he hek
            rcases hdisj with hnin | hff
            · exact hnin (by rw [hek]; exact List.mem_cons_self s rest)
            · have hmem1 : (e0.1, e0.2.1, now) ∈ cs.map
                  (fun e1 => if e1.1 == s then (e1.1, e0.2.1, now) else e1) :=
                List.mem_map.mpr ⟨e0, he0mem, by simp [he0key]⟩
              have hnot := IH.2.2 (e0.1, e0.2.1, now) hmem1 (Or.inr hf)
              rw [heq] at h
              exact hnot h
          · have he1 : e ∈ cs.map (fun e1 => if e1.1 == s then (e1.1, e0.2.1, now)
                else e1) := List.mem_map.mpr ⟨e, he, by simp [hek]⟩
            have hdisj1 : e.1 ∉ rest ∨ fails e.2.1 = false := by
              rcases hdisj with hnin | hff
              · exact Or.inl fun hr => hnin (List.mem_cons_of_mem s hr)
              · exact Or.inr hff
            exact IH.2.2 e he1 hdisj1 h

/-- Unfolding step for `process_conns` when the ready socket is absent from
the mapping (unreachable from `run`, where `rlist ⊆ keys`). -/
theorem process_conns_cons_none (wconn : Option Conn) (cs : ConnSocks)
    (s : Nat) (rest : List Nat) (fails : Conn → Bool) (now : ℚ)
    (h : cs.find? (fun e => e.1 == s) = none) :
    WorkerThread.process_conns wconn cs (s :: rest) fails now
      = WorkerThread.process_conns wconn cs rest fails now := by
  rw [WorkerThread.process_conns, h]

/-- Whenever `process_conns` invokes `conn.communicate()`, the worker's
`self.conn` field holds exactly that connection (the source assigns
`self.conn = conn` immediately before the call). -/
theorem process_conns_call_conn (rlist : List Nat) (cs : ConnSocks)
    (wconn : Option Conn) (fails : Conn → Bool) (now : ℚ)
    (o : Option Nat) (s : Nat)
    (h : WEvent.processCall o s ∈
      (WorkerThread.process_conns wconn cs rlist fails now).2.2) :
    o = some s := by
  induction rlist generalizing cs wconn with
  | nil => simp [WorkerThread.process_conns] at h
  | cons s1 rest ih =>
    cases hfind : cs.find? (fun e => e.1 == s1) with
    | none =>
      rw [process_conns_cons_none wconn cs s1 rest fails now hfind] at h
      exact ih _ _ h
    | some e0 =>
      rw [process_conns_cons_some wconn cs s1 rest fails now e0 hfind] at h
      by_cases hff : fails e0.2.1 = true
      · rw [if_pos hff] at h
        simp only [List.mem_cons] at h
        rcases h with h | h | h | h
        · injection h with h1 h2
          rw [h2]
          exact h1
        · exact WEvent.noConfusion h
        · exact WEvent.noConfusion h
        · exact ih _ _ h
      · rw [if_neg hff] at h
        simp only [List.mem_cons] at h
        rcases h with h | h
        · injection h with h1 h2
          rw [h2]
          exact h1
        · exact ih _ _ h

/-- After a whole `process_conns` sweep starting from an unset `self.conn`
(the state at the top of every `run` iteration), `self.conn` is unset again:
the field is reset to `None` after each serviced connection. -/
theorem process_conns_final_conn (rlist : List Nat) (cs : ConnSocks)
    (fails : Conn → Bool) (now : ℚ) :
    (WorkerThread.process_conns none cs rlist fails now).1 = none := by
  induction rlist generalizing cs with
  | nil => rfl
  | cons s1 rest ih =>
    cases hfind : cs.find? (fun e => e.1 == s1) with
    | none =>
      rw [process_conns_cons_none none cs s1 rest fails now hfind]
      exact ih _
    | some e0 =>
      rw [process_conns_cons_some none cs s1 rest fails now e0 hfind]
      by_cases hff : fails e0.2.1 = true
      · rw [if_pos hff]
        exact ih _
      · rw [if_neg hff]
        exact ih _

/-- Two lists with the same image of a Boolean test have the same count. -/
theorem countP_congr_of_map_eq {α β : Type} (f : α → Bool) (g : β → Bool)
    (l₁ : List α) (l₂ : List β) (h : l₁.map f = l₂.map g) :
    l₁.countP f = l₂.countP g := by
  induction l₁ generalizing l₂ with
  | nil =>
    cases l₂ with
    | nil => rfl
    | cons b t2 => cases h
  | cons a t ih =>
    cases l₂ with
    | nil => cases h
    | cons b t2 =>
      simp only [List.map_cons, List.cons.injEq] at h
      rw [List.countP_cons, List.countP_cons, h.1, ih t2 h.2]

/-- C5: the pool's read-only `idle` property counts exactly the live-list
workers whose `conn` field is unset; it depends on nothing but those `conn`
fields (in particular not on any connections a worker owns in its private
`conn_socks` mapping, which the pool cannot even see); the `conn` field holds
precisely the connection being processed while `process()` runs (so a worker
inside `process()` is not counted); and at the quiescent point after a full
sweep the field is unset again even if owned connections remain, so such a
worker counts as idle. -/
theorem idle_counts_nonprocessing :
    (∀ p : ThreadPool,
      ThreadPool.idle p = p.threads.countP (fun t => t.conn.isNone)) ∧
    (∀ p q : ThreadPool,
      p.threads.map (fun t => t.conn.isNone)
        = q.threads.map (fun t => t.conn.isNone) →
      ThreadPool.idle p = ThreadPool.idle q) ∧
    (∀ (cs : ConnSocks) (rlist : List Nat) (fails : Conn → Bool) (now : ℚ)
      (o : Option Nat) (s : Nat),
      WEvent.processCall o s ∈
        (WorkerThread.process_conns none cs rlist fails now).2.2 →
      o = some s) ∧
    (∀ (cs : ConnSocks) (rlist : List Nat) (fails : Conn → Bool) (now : ℚ),
      (WorkerThread.process_conns none cs rlist fails now).1 = none) := by
  have hidle : ∀ p : ThreadPool,
      ThreadPool.idle p = p.threads.countP (fun t => t.conn.isNone) :=
    fun p => (List.countP_eq_length_filter _ _).symm
  refine ⟨hidle, fun p q h => ?_, ?_, ?_⟩
  · rw [hidle, hidle]
    exact countP_congr_of_map_eq _ _ _ _ h
  · intro cs rlist fails now o s h
    exact process_conns_call_conn rlist cs none fails now o s h
  · intro cs rlist fails now
    exact process_conns_final_conn rlist cs fails now

/-- Witness for `idle_counts_nonprocessing`: two pools whose workers differ
in everything but the `conn` fields report the same `idle` count. -/
theorem idle_counts_nonprocessing_witness :
    ThreadPool.idle ⟨0, -1, [⟨0, true, true, none, 0, 0, 0, none, 0⟩,
        ⟨1, true, true, some ⟨7, 0, 0, 0, false⟩, 0, 0, 0, none, 0⟩],
      ⟨-1, []⟩, 10⟩
      = ThreadPool.idle ⟨5, 9, [⟨2, false, false, none, 1, 2, 3, some 4, 5⟩,
          ⟨3, true, false, some ⟨8, 1, 1, 1, true⟩, 0, 0, 0, none, 0⟩],
        ⟨2, [none]⟩, 3⟩ :=
  idle_counts_nonprocessing.2.1
    ⟨0, -1, [⟨0, true, true, none, 0, 0, 0, none, 0⟩,
        ⟨1, true, true, some ⟨7, 0, 0, 0, false⟩, 0, 0, 0, none, 0⟩],
      ⟨-1, []⟩, 10⟩
    ⟨5, 9, [⟨2, false, false, none, 1, 2, 3, some 4, 5⟩,
        ⟨3, true, false, some ⟨8, 1, 1, 1, true⟩, 0, 0, 0, none, 0⟩],
      ⟨2, [none]⟩, 3⟩
    (by rfl)

/-- Witness for `expiry_sweep_spec`: timeout 5, sweep at time 8 over an
entry last active at 0 (expired: 8 > 5) and one last active at 10 (kept);
the expired one is flushed, closed and popped, the other survives. -/
theorem expiry_sweep_spec_witness :
    ((2 : Nat), (⟨2, 0, 0, 0, false⟩ : Conn), (10 : ℚ)) ∈
      ([(2, ⟨2, 0, 0, 0, false⟩, 10)] : ConnSocks) ∧
    List.Sublist [WEvent.courtesyFlush 1, WEvent.closeConn 1, WEvent.popSock 1]
      [WEvent.courtesyFlush 1, WEvent.closeConn 1, WEvent.popSock 1] := by
  have h := expiry_sweep_spec
    [(1, ⟨1, 0, 0, 0, false⟩, 0), (2, ⟨2, 0, 0, 0, false⟩, 10)] 5 8
    (by decide) (by decide)
    [(2, ⟨2, 0, 0, 0, false⟩, 10)]
    [WEvent.courtesyFlush 1, WEvent.closeConn 1, WEvent.popSock 1]
    (by norm_num [WorkerThread.get_expired_conns, WorkerThread.close_conns,
      WorkerThread.conn_expired])
  exact ⟨((h.2 (2, ⟨2, 0, 0, 0, false⟩, 10) (by simp)).2
      (by norm_num [WorkerThread.conn_expired])).1,
    ((h.2 (1, ⟨1, 0, 0, 0, false⟩, 0) (by simp)).1
      (by norm_num [WorkerThread.conn_expired])).2⟩

/-- Witness for `process_conns_spec`: two owned connections both ready;
servicing socket 1 raises (it is closed), servicing socket 2 succeeds (it is
not closed). -/
theorem process_conns_spec_witness :
    WEvent.closeConn 1 ∈ (WorkerThread.process_conns none
        [(1, ⟨1, 0, 0, 0, false⟩, 0), (2, ⟨2, 0, 0, 0, false⟩, 0)] [1, 2]
        (fun c => c.socket == 1) 9).2.2 ∧
    WEvent.closeConn 2 ∉ (WorkerThread.process_conns none
        [(1, ⟨1, 0, 0, 0, false⟩, 0), (2, ⟨2, 0, 0, 0, false⟩, 0)] [1, 2]
        (fun c => c.socket == 1) 9).2.2 := by
  have h := process_conns_spec [1, 2]
    [(1, ⟨1, 0, 0, 0, false⟩, 0), (2, ⟨2, 0, 0, 0, false⟩, 0)]
    none (fun c => c.socket == 1) 9 (by decide) (by decide) (by decide)
    (by decide)
  exact ⟨h.2.1 (1, ⟨1, 0, 0, 0, false⟩, 0) (by simp) (by decide) (by decide),
    h.2.2 (2, ⟨2, 0, 0, 0, false⟩, 0) (by simp) (Or.inr (by decide))⟩

/-! ### Theorems about the `stop` model -/

/-- A worker on which `stop`'s per-worker iteration is guaranteed to return:
it is the calling thread, or it terminates of its own accord at some instant,
or it has an in-flight connection with an open read file and the forced
read-half shutdown unblocks it. -/
def StopWorker.settles (w : StopWorker) : Bool :=
  w.is_current || w.term_time.isSome ||
    (match w.conn with
     | some c => !c.rfile_closed && w.unblock_delay.isSome
     | none => false)

set_option maxHeartbeats 1000000 in
/-- A settling worker's bounded-regime iteration returns. -/
theorem stopStep_isSome (w : StopWorker) (endtime t : Int)
    (h : w.settles = true) :
    (stopStep (some endtime) t w).isSome := by
  obtain ⟨i, ic, tt, cn, ud⟩ := w
  rcases cn with _ | ⟨cs, rc⟩ <;> try cases rc
  all_goals cases ic
  all_goals rcases tt with _ | tv
  all_goals rcases ud with _ | dv
  all_goals simp only [StopWorker.settles, Bool.or_eq_true, Bool.and_eq_true,
    Bool.not_eq_true', Option.isSome_some, Option.isSome_none] at h
  all_goals simp only [stopStep, StopWorker.aliveAt, StopWorker.joinUpTo,
    StopWorker.termAfterShutdown]
  all_goals repeat' split
  all_goals simp_all

set_option maxHeartbeats 1000000 in
/-- Every deadline-bounded join performed by an iteration runs up to the
shared deadline `endtime`. -/
theorem stopStep_joinDeadline (w : StopWorker) (endtime t : Int)
    (res : Int × List StopEvent)
    (hstep : stopStep (some endtime) t w = some res)
    (i : Nat) (dl : Int)
    (hmem : StopEvent.joinDeadline i dl ∈ res.2) : dl = endtime := by
  obtain ⟨i0, ic, tt, cn, ud⟩ := w
  rcases cn with _ | ⟨cs, rc⟩ <;> try cases rc
  all_goals cases ic
  all_goals rcases tt with _ | tv
  all_goals rcases ud with _ | dv
  all_goals simp only [stopStep, StopWorker.aliveAt, StopWorker.joinUpTo,
    StopWorker.termAfterShutdown] at hstep
  all_goals repeat' split at hstep
  all_goals simp_all
  all_goals (try subst hstep)
  all_goals simp_all

set_option maxHeartbeats 1000000 in
/-- A forced read-half shutdown is performed only on a worker whose `conn` is
set with its read file still open, and targets that connection's socket. -/
theorem stopStep_shutdown (eOpt : Option Int) (w : StopWorker) (t : Int)
    (res : Int × List StopEvent)
    (hstep : stopStep eOpt t w = some res)
    (i : Nat) (s : Nat)
    (hmem : StopEvent.shutdownRead i s ∈ res.2) :
    w.id = i ∧ ∃ c, w.conn = some c ∧ c.rfile_closed = false ∧
      c.socket = s := by
  obtain ⟨i0, ic, tt, cn, ud⟩ := w
  rcases eOpt with _ | endtime
  all_goals rcases cn with _ | ⟨cs, rc⟩ <;> try cases rc
  all_goals cases ic
  all_goals rcases tt with _ | tv
  all_goals rcases ud with _ | dv
  all_goals simp only [stopStep, StopWorker.aliveAt, StopWorker.joinUpTo,
    StopWorker.termAfterShutdown] at hstep
  all_goals repeat' split at hstep
  all_goals simp_all
  all_goals (try subst hstep)
  all_goals simp_all

set_option maxHeartbeats 1000000 in
/-- In the unbounded regime (`timeout` unset or negative) an iteration emits
only unbounded joins: never a forced shutdown. -/
theorem stopStep_none_events (w : StopWorker) (t : Int)
    (res : Int × List StopEvent)
    (hstep : stopStep none t w = some res) :
    res.2 = [] ∨ res.2 = [StopEvent.joinForever w.id] := by
  obtain ⟨i0, ic, tt, cn, ud⟩ := w
  rcases cn with _ | ⟨cs, rc⟩ <;> try cases rc
  all_goals cases ic
  all_goals rcases tt with _ | tv
  all_goals rcases ud with _ | dv
  all_goals simp only [stopStep, StopWorker.aliveAt] at hstep
  all_goals repeat' split at hstep
  all_goals simp_all
  all_goals (try subst hstep)
  all_goals simp_all

/-- The join loop on the empty list returns at once. -/
theorem stopJoinLoop_nil (eOpt : Option Int) (t : Int) :
    stopJoinLoop eOpt t [] = some (t, []) := rfl

/-- The join loop returns when every worker settles. -/
theorem stopJoinLoop_isSome (endtime : Int) (l : List StopWorker)
    (h : ∀ w ∈ l, w.settles = true) :
    ∀ t, (stopJoinLoop (some endtime) t l).isSome := by
  induction l with
  | nil => intro t; rfl
  | cons w rest ih =>
    intro t
    obtain ⟨r, hr⟩ := Option.isSome_iff_exists.mp
      (stopStep_isSome w endtime t (h w (List.mem_cons_self w rest)))
    obtain ⟨r2, hr2⟩ := Option.isSome_iff_exists.mp
      (ih (fun w1 hw1 => h w1 (List.mem_cons_of_mem w hw1)) r.1)
    simp [stopJoinLoop, hr, hr2]

/-- Every deadline-bounded join in the loop's trace runs up to the shared
deadline. -/
theorem stopJoinLoop_joinDeadline (endtime : Int) (l : List StopWorker) :
    ∀ t res, stopJoinLoop (some endtime) t l = some res →
    ∀ i dl, StopEvent.joinDeadline i dl ∈ res.2 → dl = endtime := by
  induction l with
  | nil =>
    intro t res h i dl hm
    rw [stopJoinLoop_nil] at h
    obtain rfl := Option.some.inj h
    simp at hm
  | cons w rest ih =>
    intro t res h i dl hm
    simp only [stopJoinLoop] at h
    cases hstep : stopStep (some endtime) t w with
    | none => rw [hstep] at h; simp at h
    | some r =>
      rw [hstep] at h
      simp only [Option.some_bind] at h
      cases hloop : stopJoinLoop (some endtime) r.1 rest with
      | none => rw [hloop] at h; simp at h
      | some r2 =>
        rw [hloop] at h
        simp only [Option.map_some'] at h
        obtain rfl := Option.some.inj h
        rcases List.mem_append.mp hm with hm1 | hm2
        · exact stopStep_joinDeadline w endtime t r hstep i dl hm1
        · exact ih r.1 r2 hloop i dl hm2

/-- Every forced shutdown in the loop's trace belongs to a listed worker
whose `conn` is set with an open read file, and targets its socket. -/
theorem stopJoinLoop_shutdown (eOpt : Option Int) (l : List StopWorker) :
    ∀ t res, stopJoinLoop eOpt t l = some res →
    ∀ i s, StopEvent.shutdownRead i s ∈ res.2 →
    ∃ w ∈ l, w.id = i ∧ ∃ c, w.conn = some c ∧ c.rfile_closed = false ∧
      c.socket = s := by
  induction l with
  | nil =>
    intro t res h i s hm
    rw [stopJoinLoop_nil] at h
    obtain rfl := Option.some.inj h
    simp at hm
  | cons w rest ih =>
    intro t res h i s hm
    simp only [stopJoinLoop] at h
    cases hstep : stopStep eOpt t w with
    | none => rw [hstep] at h; simp at h
    | some r =>
      rw [hstep] at h
      simp only [Option.some_bind] at h
      cases hloop : stopJoinLoop eOpt r.1 rest with
      | none => rw [hloop] at h; simp at h
      | some r2 =>
        rw [hloop] at h
        simp only [Option.map_some'] at h
        obtain rfl := Option.some.inj h
        rcases List.mem_append.mp hm with hm1 | hm2
        · obtain ⟨hid, c, hc⟩ := stopStep_shutdown eOpt w t r hstep i s hm1
          exact ⟨w, List.mem_cons_self w rest, hid, c, hc⟩
        · obtain ⟨w1, hw1, hrest⟩ := ih r.1 r2 hloop i s hm2
          exact ⟨w1, List.mem_cons_of_mem w hw1, hrest⟩

/-- In the unbounded regime the loop's trace contains no forced shutdown. -/
theorem stopJoinLoop_none_no_shutdown (l : List StopWorker) :
    ∀ t res, stopJoinLoop none t l = some res →
    ∀ i s, StopEvent.shutdownRead i s ∉ res.2 := by
  induction l with
  | nil =>
    intro t res h i s
    rw [stopJoinLoop_nil] at h
    obtain rfl := Option.some.inj h
    simp
  | cons w rest ih =>
    intro t res h i s
    simp only [stopJoinLoop] at h
    cases hstep : stopStep none t w with
    | none => rw [hstep] at h; simp at h
    | some r =>
      rw [hstep] at h
      simp only [Option.some_bind] at h
      cases hloop : stopJoinLoop none r.1 rest with
      | none => rw [hloop] at h; simp at h
      | some r2 =>
        rw [hloop] at h
        simp only [Option.map_some'] at h
        obtain rfl := Option.some.inj h
        intro hm
        rcases List.mem_append.mp hm with hm1 | hm2
        · rcases stopStep_none_events w t r hstep with he | he <;>
            rw [he] at hm1 <;> simp at hm1
        · exact ih r.1 r2 hloop i s hm2

/-- C1 counterexample: the claim says that with `timeout ≥ 0` `stop` itself
terminates in bounded time, every worker still alive past the deadline having
its in-flight connection's socket read-half shut down so that `stop` returns.
But the source skips the shutdown when the connection's `rfile` is already
closed (`if c and not c.rfile.closed`), and then calls an *unbounded*
`worker.join()`.  For a single worker stuck forever inside `process()` on a
connection whose read file is closed (socket 7), `stop(5)` never returns:
no shutdown is attempted and the final unbounded join never completes. -/
theorem stop_unbounded_cex :
    ThreadPool.stop (some 5) 0
      [⟨0, false, none, some ⟨7, true⟩, none⟩] = none := by rfl

/-- C1 as amended: for `timeout ≥ 0`, provided every non-current worker
either terminates on its own or has an in-flight connection with an open read
file that unblocks on the forced shutdown, `stop` returns; every
deadline-bounded join it performs runs up to the single shared deadline
`t0 + timeout`; a forced read-half shutdown is performed only on (and
targets the in-flight connection of) a worker whose `conn` is set with its
read file still open; and with `timeout` unset (`None`) or negative, `stop`
joins without bound and never forces a shutdown. -/
theorem stop_amended_spec (t0 : Int) (ws : List StopWorker) :
    (∀ tmo : Int, 0 ≤ tmo → (∀ w ∈ ws, w.settles = true) →
      ∃ tf evs, ThreadPool.stop (some tmo) t0 ws = some (tf, evs) ∧
        (∀ i dl, StopEvent.joinDeadline i dl ∈ evs → dl = t0 + tmo) ∧
        (∀ i s, StopEvent.shutdownRead i s ∈ evs →
          ∃ w ∈ ws, w.id = i ∧ ∃ c, w.conn = some c ∧
            c.rfile_closed = false ∧ c.socket = s)) ∧
    (∀ tmoOpt : Option Int,
      (tmoOpt = none ∨ ∃ v, tmoOpt = some v ∧ v < 0) →
      ∀ tf evs, ThreadPool.stop tmoOpt t0 ws = some (tf, evs) →
        ∀ i s, StopEvent.shutdownRead i s ∉ evs) := by
  constructor
  · intro tmo htmo hsettles
    obtain ⟨res, hres⟩ := Option.isSome_iff_exists.mp
      (stopJoinLoop_isSome (t0 + tmo) ws.reverse
        (fun w hw => hsettles w (List.mem_reverse.mp hw)) t0)
    refine ⟨res.1, ws.map (fun _ => StopEvent.sentinel) ++ res.2, ?_, ?_, ?_⟩
    · simp [ThreadPool.stop, if_pos htmo, hres]
    · intro i dl hm
      rcases List.mem_append.mp hm with hm1 | hm2
      · obtain ⟨w1, _, habs⟩ := List.mem_map.mp hm1
        exact StopEvent.noConfusion habs
      · exact stopJoinLoop_joinDeadline (t0 + tmo) ws.reverse t0 res hres i dl
          hm2
    · intro i s hm
      rcases List.mem_append.mp hm with hm1 | hm2
      · obtain ⟨w1, _, habs⟩ := List.mem_map.mp hm1
        exact StopEvent.noConfusion habs
      · obtain ⟨w1, hw1, hrest⟩ :=
          stopJoinLoop_shutdown (some (t0 + tmo)) ws.reverse t0 res hres i s hm2
        exact ⟨w1, List.mem_reverse.mp hw1, hrest⟩
  · intro tmoOpt hbad tf evs hstop i s
    have hnone : ThreadPool.stop tmoOpt t0 ws
        = (stopJoinLoop none t0 ws.reverse).map
          (fun r => (r.1, ws.map (fun _ => StopEvent.sentinel) ++ r.2)) := by
      rcases hbad with rfl | ⟨v, rfl, hv⟩
      · rfl
      · simp [ThreadPool.stop, if_neg (not_le.mpr hv)]
    rw [hnone] at hstop
    cases hloop : stopJoinLoop none t0 ws.reverse with
    | none => rw [hloop] at hstop; simp at hstop
    | some r =>
      rw [hloop] at hstop
      simp only [Option.map_some'] at hstop
      obtain ⟨rfl, rfl⟩ := Prod.mk.inj (Option.some.inj hstop)
      intro hm
      rcases List.mem_append.mp hm with hm1 | hm2
      · obtain ⟨w1, _, habs⟩ := List.mem_map.mp hm1
        exact StopEvent.noConfusion habs
      · exact stopJoinLoop_none_no_shutdown ws.reverse t0 r hloop i s hm2

/-- Witness for `stop_amended_spec`: one worker that terminates on its own at
instant 3; `stop(5)` from instant 0 returns, every bounded join runs to the
shared deadline 5, and any shutdown (there is none) would target an open
in-flight connection. -/
theorem stop_amended_spec_witness :
    ∃ tf evs, ThreadPool.stop (some 5) 0
        [⟨0, false, some 3, none, none⟩] = some (tf, evs) ∧
      (∀ i dl, StopEvent.joinDeadline i dl ∈ evs → dl = 0 + 5) ∧
      (∀ i s, StopEvent.shutdownRead i s ∈ evs →
        ∃ w ∈ [(⟨0, false, some 3, none, none⟩ : StopWorker)], w.id = i ∧
          ∃ c, w.conn = some c ∧ c.rfile_closed = false ∧ c.socket = s) :=
  (stop_amended_spec 0 [⟨0, false, some 3, none, none⟩]).1 5 (by norm_num)
    (by
      intro w hw
      simp only [List.mem_singleton] at hw
      subst hw
      rfl)
